import Mathlib

/-!
Verification of the `useForm` composable (src/composables/useForm.ts):
a form-state manager that runs a zod schema over the current form value
and flattens the resulting formatted error structure into a flat map
from dot-joined field paths to single error messages.

The embedding below mirrors the TypeScript source:
  * `FormattedErrors` is the shape of zod's `error.format()` result:
    a `_errors` message list at each level plus named children.
  * `ErrorMap` models the reactive `errors` record: an insertion-ordered
    string-keyed map with JS-object set/delete semantics.
  * `processErrors` is the recursive walk inside `validate`;
    `validate`, `validateField` and `runSubmit` model the functions of
    the same names (`runSubmit` is the async action returned by
    `handleSubmit`, with try/catch/finally made explicit in `Except`).
-/

namespace ZodForm

/-- A node of the structure returned by zod's `error.format()`:
`_errors` (the message list for this level) together with the child
nodes for nested keys. -/
inductive FormattedErrors : Type where
  | node : List String → List (String × FormattedErrors) → FormattedErrors

/-- The `_errors` list of a formatted-error node. -/
def FormattedErrors.messages : FormattedErrors → List String
  | .node ms _ => ms

/-- The named children of a formatted-error node. -/
def FormattedErrors.children : FormattedErrors → List (String × FormattedErrors)
  | .node _ cs => cs

/-- The reactive `errors` record: an insertion-ordered association list
from dot-joined path to message, with JS-object update semantics. -/
abbrev ErrorMap := List (String × String)

/-- Read a key, as `errors[k]`: the first binding for `k`, if any. -/
def ErrorMap.get (m : ErrorMap) (k : String) : Option String :=
  (m.find? (fun p => p.1 == k)).map Prod.snd

/-- Write a key, as `errors[k] = v`: overwrite an existing binding in
place, otherwise append a new one (JS object insertion order). -/
def ErrorMap.set (m : ErrorMap) (k v : String) : ErrorMap :=
  if m.any (fun p => p.1 == k) then
    m.map (fun p => if p.1 == k then (k, v) else p)
  else m ++ [(k, v)]

/-- Remove a key, as `delete errors[k]`. -/
def ErrorMap.del (m : ErrorMap) (k : String) : ErrorMap :=
  m.filter (fun p => p.1 != k)

/-- The keys of the map, in insertion order. -/
def ErrorMap.keys (m : ErrorMap) : List String :=
  m.map Prod.fst

/-- `Object.keys(errors).forEach((key) => delete errors[key])`:
delete every current key of the map. -/
def ErrorMap.clearAll (m : ErrorMap) : ErrorMap :=
  m.keys.foldl (fun acc k => acc.del k) m

/-- `parentPath ? parentPath + "." + key : key`. -/
def joinPath (parentPath key : String) : String :=
  if parentPath = "" then key else parentPath ++ "." ++ key

mutual
/-- The recursive `processErrors(errObj, parentPath)` closure inside
`validate`: if the node's `_errors` is non-empty and `parentPath` is
non-empty, record `errors[parentPath] = _errors[0]`; then recurse into
every child, extending the path with `.` and the key. -/
def processErrors (errObj : FormattedErrors) (parentPath : String)
    (errors : ErrorMap) : ErrorMap :=
  match errObj with
  | .node msgs children =>
    let errors1 :=
      match msgs with
      | m0 :: _ => if parentPath ≠ "" then errors.set parentPath m0 else errors
      | [] => errors
    processChildren children parentPath errors1

/-- The `Object.entries(errObj).forEach` loop of `processErrors`,
visiting children left to right. -/
def processChildren (children : List (String × FormattedErrors))
    (parentPath : String) (errors : ErrorMap) : ErrorMap :=
  match children with
  | [] => errors
  | (key, child) :: rest =>
      processChildren rest parentPath
        (processErrors child (joinPath parentPath key) errors)
end

/-- A single entry of zod's `result.error.issues`: the issue path (each
segment already rendered as a string, as `join(".")` renders it) and the
issue message. -/
structure Issue where
  path : List String
  message : String

/-- The outcome of `schema.safeParse(form)` as `validate` consumes it:
success, or failure carrying `result.error.format()` and
`result.error.issues`. -/
inductive ParseResult : Type where
  | success : ParseResult
  | failure : FormattedErrors → List Issue → ParseResult

/-- The state owned by `useForm`: the form value, the `errors` record
and the `isSubmitting` flag. -/
structure FormState (V : Type) where
  form : V
  errors : ErrorMap
  isSubmitting : Bool

/-- The `validate` function: clear every existing error key, run
`schema.safeParse(form)`; on failure, walk the formatted errors with
`processErrors` and then resolve root-level refine messages to the path
of the first issue whose path is non-empty; return whether validation
succeeded. -/
def validate {V : Type} (schema : V → ParseResult) (s : FormState V) :
    FormState V × Bool :=
  let cleared := s.errors.clearAll
  match schema s.form with
  | .success => ({ s with errors := cleared }, true)
  | .failure formattedErrors issues =>
    let e1 := processErrors formattedErrors "" cleared
    let e2 :=
      match formattedErrors.messages with
      | m0 :: _ =>
        match issues.find? (fun issue => decide (0 < issue.path.length)) with
        | some issue => e1.set (String.intercalate "." issue.path) m0
        | none => e1
      | [] => e1
    ({ s with errors := e2 }, false)

/-- Characters part of `path.split(".")`: split the character list at
every `'.'`, keeping empty segments, with `[[]]` for the empty list, as
the JS `split` does. -/
def splitDotChars : List Char → List (List Char)
  | [] => [[]]
  | c :: rest =>
    let r := splitDotChars rest
    if c = '.' then [] :: r
    else
      match r with
      | seg :: segs => (c :: seg) :: segs
      | [] => [[c]]

/-- `path.split(".")` of the source: the dot-separated segments of the
path, empty segments included. -/
def splitDot (s : String) : List String :=
  (splitDotChars s.data).map String.mk

/-- The descent loop of `validateField`: follow the formatted errors
node by node along the path segments; `none` when some segment has no
child at the current depth. -/
def descend (errorObj : FormattedErrors) : List String → Option FormattedErrors
  | [] => some errorObj
  | part :: rest =>
    match errorObj.children.find? (fun kc => kc.1 == part) with
    | some kc => descend kc.2 rest
    | none => none

/-- The `validateField(path)` function: re-run `schema.safeParse(form)`;
on failure, split `path` on `.` and descend the formatted errors; if the
descent lands on a node with non-empty `_errors`, set
`errors[path] = _errors[0]` and return `false`; in every other case
delete `errors[path]` and return `true`. -/
def validateField {V : Type} (schema : V → ParseResult) (s : FormState V)
    (path : String) : FormState V × Bool :=
  match schema s.form with
  | .failure formattedErrors _ =>
    match descend formattedErrors (splitDot path) with
    | some errorObj =>
      match errorObj.messages with
      | m0 :: _ => ({ s with errors := s.errors.set path m0 }, false)
      | [] => ({ s with errors := s.errors.del path }, true)
    | none => ({ s with errors := s.errors.del path }, true)
  | .success => ({ s with errors := s.errors.del path }, true)

/-- Observable outcome of one run of the action returned by
`handleSubmit`: the final state, the list of values the handler was
invoked with, and the messages logged by the catch block. -/
structure SubmitOutcome (V : Type) where
  state : FormState V
  handlerCalls : List V
  logged : List String

/-- The zero-argument async action returned by `handleSubmit(onSubmit)`.
The handler may fail (`Except.error`); the action's own result is an
`Except` so that "the action throws" is representable. The source's
try/catch/finally appears as: both handler outcomes produce `.ok`, the
catch arm logs the error, and both arms reset `isSubmitting` to
`false`. -/
def runSubmit {V : Type} (schema : V → ParseResult)
    (onSubmit : V → Except String Unit) (s : FormState V) :
    Except String (SubmitOutcome V) :=
  let r := validate schema s
  if r.2 = false then
    .ok { state := r.1, handlerCalls := [], logged := [] }
  else
    let s1 := { r.1 with isSubmitting := true }
    let snapshot := s1.form
    match onSubmit snapshot with
    | .ok _ =>
      .ok { state := { s1 with isSubmitting := false },
            handlerCalls := [snapshot], logged := [] }
    | .error e =>
      .ok { state := { s1 with isSubmitting := false },
            handlerCalls := [snapshot],
            logged := ["Form submission error: " ++ e] }

mutual
/-- Specification-side description of the flattening (spec §4.1 and §8):
one entry per node whose `messages` is non-empty and whose dot-joined
path is non-root, carrying that node's first message, in depth-first
order. -/
def specEntries (t : FormattedErrors) (parentPath : String) :
    List (String × String) :=
  match t with
  | .node msgs children =>
    (match msgs with
     | m0 :: _ => if parentPath ≠ "" then [(parentPath, m0)] else []
     | [] => []) ++ specEntriesChildren children parentPath

/-- Children part of `specEntries`. -/
def specEntriesChildren (cs : List (String × FormattedErrors))
    (parentPath : String) : List (String × String) :=
  match cs with
  | [] => []
  | (k, c) :: rest =>
      specEntries c (joinPath parentPath k) ++ specEntriesChildren rest parentPath
end

/-- Concrete formatted-error tree for the concrete instantiations: a
root-level refine message, a field `a` with two messages, and a nested
field `b.c` with one message. -/
def exTree : FormattedErrors :=
  .node ["rootmsg"]
    [("a", .node ["fieldA", "second"] []),
     ("b", .node [] [("c", .node ["n"] [])])]

/-- Issues accompanying `exTree`: a root issue with an empty path,
followed by a field issue at path `["a"]`. -/
def exIssues : List Issue :=
  [{ path := [], message := "r" }, { path := ["a"], message := "fieldA" }]

/-- A schema that always fails with `exTree` and `exIssues`. -/
def exSchema : Nat → ParseResult := fun _ => .failure exTree exIssues

/-- A schema that always succeeds. -/
def exOkSchema : Nat → ParseResult := fun _ => .success

/-- A submit handler that always rejects. -/
def exFailHandler : Nat → Except String Unit := fun _ => .error "boom"

/-- A form state carrying stale error entries. -/
def exState : FormState Nat :=
  { form := 0, errors := [("old", "e"), ("a", "stale")], isSubmitting := false }

/-! ### Basic laws of the `ErrorMap` operations -/

theorem ErrorMap.any_eq_false_of_not_mem (m : ErrorMap) (k : String)
    (h : k ∉ m.keys) : m.any (fun p => p.1 == k) = false := by
  rw [List.any_eq_false]
  intro p hp hbeq
  have hk : p.1 = k := beq_iff_eq.mp hbeq
  exact h (hk ▸ List.mem_map_of_mem Prod.fst hp)

theorem ErrorMap.set_of_not_mem (m : ErrorMap) (k v : String)
    (h : k ∉ m.keys) : m.set k v = m ++ [(k, v)] := by
  unfold ErrorMap.set
  rw [ErrorMap.any_eq_false_of_not_mem m k h]
  simp

theorem ErrorMap.find?_overwrite (m : ErrorMap) (k v : String)
    (hany : m.any (fun p => p.1 == k) = true) :
    (m.map (fun p => if p.1 == k then (k, v) else p)).find? (fun p => p.1 == k)
      = some (k, v) := by
  induction m with
  | nil => simp at hany
  | cons p rest ih =>
    by_cases hpk : p.1 = k
    · have hb : (p.1 == k) = true := beq_iff_eq.mpr hpk
      rw [List.map_cons, if_pos hb]
      exact List.find?_cons_of_pos _ (by simp)
    · have hb : (p.1 == k) = false := by simpa [beq_iff_eq] using hpk
      rw [List.map_cons, if_neg (by simp [hb])]
      rw [List.find?_cons_of_neg _ (by simp [hb])]
      simp only [List.any_cons, hb, Bool.false_or] at hany
      exact ih hany

theorem ErrorMap.find?_overwrite_ne (m : ErrorMap) (k v q : String) (hq : q ≠ k) :
    (m.map (fun p => if p.1 == k then (k, v) else p)).find? (fun p => p.1 == q)
      = m.find? (fun p => p.1 == q) := by
  induction m with
  | nil => rfl
  | cons p rest ih =>
    by_cases hpk : p.1 = k
    · have hb : (p.1 == k) = true := beq_iff_eq.mpr hpk
      have hpq : (p.1 == q) = false := by
        simp [beq_iff_eq, hpk, Ne.symm hq]
      rw [List.map_cons, if_pos hb]
      rw [List.find?_cons_of_neg _ (by simp [beq_iff_eq, Ne.symm hq])]
      rw [List.find?_cons_of_neg _ (by simp [hpq])]
      exact ih
    · have hb : (p.1 == k) = false := by simpa [beq_iff_eq] using hpk
      rw [List.map_cons, if_neg (by simp [hb])]
      by_cases hpq : p.1 = q
      · rw [List.find?_cons_of_pos _ (by simp [beq_iff_eq, hpq]),
          List.find?_cons_of_pos _ (by simp [beq_iff_eq, hpq])]
      · rw [List.find?_cons_of_neg _ (by simp [beq_iff_eq, hpq]),
          List.find?_cons_of_neg _ (by simp [beq_iff_eq, hpq])]
        exact ih

theorem ErrorMap.get_set_self (m : ErrorMap) (k v : String) :
    (m.set k v).get k = some v := by
  unfold ErrorMap.set ErrorMap.get
  by_cases hany : m.any (fun p => p.1 == k) = true
  · rw [if_pos hany, ErrorMap.find?_overwrite m k v hany]
    rfl
  · rw [if_neg hany]
    have hnone : m.find? (fun p => p.1 == k) = none := by
      rw [List.find?_eq_none]
      intro p hp hbeq
      exact hany (List.any_eq_true.mpr ⟨p, hp, hbeq⟩)
    rw [List.find?_append, hnone, Option.none_or,
      List.find?_cons_of_pos _ (by simp)]
    rfl

theorem ErrorMap.get_set_ne (m : ErrorMap) (k v q : String) (hq : q ≠ k) :
    (m.set k v).get q = m.get q := by
  unfold ErrorMap.set ErrorMap.get
  by_cases hany : m.any (fun p => p.1 == k) = true
  · rw [if_pos hany, ErrorMap.find?_overwrite_ne m k v q hq]
  · rw [if_neg hany, List.find?_append]
    rw [List.find?_cons_of_neg _ (by simp [beq_iff_eq, Ne.symm hq]),
      List.find?_nil, Option.or_none]

theorem ErrorMap.get_del_self (m : ErrorMap) (k : String) :
    (m.del k).get k = none := by
  unfold ErrorMap.del ErrorMap.get
  have hnone : (m.filter (fun p => p.1 != k)).find? (fun p => p.1 == k) = none := by
    rw [List.find?_eq_none]
    intro p hp
    have := (List.mem_filter.mp hp).2
    simpa [bne_iff_ne, beq_iff_eq] using this
  rw [hnone]
  rfl

theorem ErrorMap.get_del_ne (m : ErrorMap) (k q : String) (hq : q ≠ k) :
    (m.del k).get q = m.get q := by
  unfold ErrorMap.del ErrorMap.get
  induction m with
  | nil => rfl
  | cons p rest ih =>
    by_cases hpk : p.1 = k
    · have hpq : (p.1 == q) = false := by
        simp [beq_iff_eq, hpk, Ne.symm hq]
      rw [List.filter_cons_of_neg (by simp [bne_iff_ne, hpk]),
        List.find?_cons_of_neg _ (by simp [hpq])]
      exact ih
    · rw [List.filter_cons_of_pos (by simpa [bne_iff_ne] using hpk)]
      by_cases hpq : p.1 = q
      · rw [List.find?_cons_of_pos _ (by simp [beq_iff_eq, hpq]),
          List.find?_cons_of_pos _ (by simp [beq_iff_eq, hpq])]
      · rw [List.find?_cons_of_neg _ (by simp [beq_iff_eq, hpq]),
          List.find?_cons_of_neg _ (by simp [beq_iff_eq, hpq])]
        exact ih

theorem ErrorMap.foldl_del_eq_nil (l : List String) :
    ∀ m : ErrorMap, (∀ p ∈ m, p.1 ∈ l) →
      l.foldl (fun acc k => acc.del k) m = [] := by
  induction l with
  | nil =>
    intro m h
    cases m with
    | nil => rfl
    | cons p rest => exact absurd (h p (List.mem_cons_self p rest)) (by simp)
  | cons k l ih =>
    intro m h
    rw [List.foldl_cons]
    refine ih (m.del k) ?_
    intro p hp
    have hmem := List.mem_filter.mp hp
    have hne : p.1 ≠ k := by simpa [bne_iff_ne] using hmem.2
    rcases h p hmem.1 with h1
    rcases List.mem_cons.mp h1 with h2 | h2
    · exact absurd h2 hne
    · exact h2

theorem ErrorMap.clearAll_eq_nil (m : ErrorMap) : m.clearAll = [] := by
  unfold ErrorMap.clearAll
  exact ErrorMap.foldl_del_eq_nil m.keys m (fun p hp => List.mem_map_of_mem Prod.fst hp)

/-! ### The recursive walk agrees with the declarative flattening -/

mutual
/-- When the declared entry paths (together with the keys already in the
accumulator) are pairwise distinct, the recursive walk appends exactly
the declarative entries. -/
theorem processErrors_eq_spec (t : FormattedErrors) (parentPath : String)
    (em : ErrorMap)
    (h : ((em ++ specEntries t parentPath).map Prod.fst).Nodup) :
    processErrors t parentPath em = em ++ specEntries t parentPath := by
  cases t with
  | node msgs children =>
    cases msgs with
    | nil =>
      rw [processErrors]
      rw [specEntries] at h ⊢
      simpa using processChildren_eq_spec children parentPath em (by simpa using h)
    | cons m0 rest =>
      by_cases hp : parentPath = ""
      · rw [processErrors]
        rw [specEntries] at h ⊢
        simp only [hp, ne_eq, not_true_eq_false, if_false, List.nil_append]
        simpa [hp] using processChildren_eq_spec children "" em (by simpa [hp] using h)
      · rw [processErrors]
        rw [specEntries] at h ⊢
        simp only [ne_eq, hp, not_false_eq_true, if_true] at h ⊢
        have hnotmem : parentPath ∉ em.keys := by
          rw [List.map_append] at h
          have hdisj := (List.nodup_append.mp h).2.2
          intro hmem
          exact hdisj hmem (by simp)
        rw [ErrorMap.set_of_not_mem em parentPath m0 hnotmem]
        have hassoc :
            (em ++ [(parentPath, m0)]) ++ specEntriesChildren children parentPath
              = em ++ ((parentPath, m0) :: specEntriesChildren children parentPath) := by
          simp
        have hre := processChildren_eq_spec children parentPath
          (em ++ [(parentPath, m0)]) (by rw [hassoc]; simpa using h)
        rw [hre]
        simp

/-- Children part of `processErrors_eq_spec`. -/
theorem processChildren_eq_spec (cs : List (String × FormattedErrors))
    (parentPath : String) (em : ErrorMap)
    (h : ((em ++ specEntriesChildren cs parentPath).map Prod.fst).Nodup) :
    processChildren cs parentPath em = em ++ specEntriesChildren cs parentPath := by
  cases cs with
  | nil =>
    rw [processChildren, specEntriesChildren]
    simp
  | cons kc rest =>
    match kc with
    | (k, c) =>
      rw [processChildren]
      rw [specEntriesChildren] at h ⊢
      have h1 : ((em ++ specEntries c (joinPath parentPath k)).map Prod.fst).Nodup := by
        refine List.Nodup.sublist ?_ h
        rw [List.map_append, List.map_append, List.map_append]
        rw [← List.append_assoc]
        exact List.sublist_append_left _ _
      have he := processErrors_eq_spec c (joinPath parentPath k) em h1
      rw [he]
      have h2 : (((em ++ specEntries c (joinPath parentPath k))
          ++ specEntriesChildren rest parentPath).map Prod.fst).Nodup := by
        rw [List.append_assoc]
        exact h
      have hr := processChildren_eq_spec rest parentPath
        (em ++ specEntries c (joinPath parentPath k)) h2
      rw [hr, List.append_assoc]
end

/-! ### `validate` reads only the form value -/

theorem validate_form {V : Type} (schema : V → ParseResult) (s : FormState V) :
    (validate schema s).1.form = s.form := by
  cases hres : schema s.form <;> simp [validate, hres]

theorem validate_isSubmitting {V : Type} (schema : V → ParseResult)
    (s : FormState V) :
    (validate schema s).1.isSubmitting = s.isSubmitting := by
  cases hres : schema s.form <;> simp [validate, hres]

theorem validateField_form {V : Type} (schema : V → ParseResult)
    (s : FormState V) (path : String) :
    (validateField schema s path).1.form = s.form := by
  unfold validateField
  cases hres : schema s.form with
  | success => rfl
  | failure fmt issues =>
    cases hdes : descend fmt (splitDot path) with
    | none => simp [hdes]
    | some errorObj => cases hmsg : errorObj.messages <;> simp [hdes, hmsg]

theorem validateField_isSubmitting {V : Type} (schema : V → ParseResult)
    (s : FormState V) (path : String) :
    (validateField schema s path).1.isSubmitting = s.isSubmitting := by
  unfold validateField
  cases hres : schema s.form with
  | success => rfl
  | failure fmt issues =>
    cases hdes : descend fmt (splitDot path) with
    | none => simp [hdes]
    | some errorObj => cases hmsg : errorObj.messages <;> simp [hdes, hmsg]

/-- The outcome of `validate` depends on the state only through the form
value: the previous error entries are cleared away first. -/
theorem validate_ext {V : Type} (schema : V → ParseResult)
    (s t : FormState V) (h : s.form = t.form) :
    (validate schema s).1.errors = (validate schema t).1.errors ∧
      (validate schema s).2 = (validate schema t).2 := by
  cases hres : schema t.form with
  | success =>
    constructor <;>
      simp [validate, h, hres, ErrorMap.clearAll_eq_nil]
  | failure fmt issues =>
    constructor <;>
      simp [validate, h, hres, ErrorMap.clearAll_eq_nil]

/-! ### Claims -/

/-- C1: for every formatted failure tree whose dot-joined entry paths
are pairwise distinct (as zod's `format()` produces, one child per
key), the flattening walk performed by `validate` records exactly one
error-map entry per node whose message list is non-empty and whose path
is non-root, keyed by that node's dot-joined path and carrying that
node's first message; later messages of the node are discarded. -/
theorem c1_flatten_first_message (t : FormattedErrors)
    (h : ((specEntries t "").map Prod.fst).Nodup) :
    processErrors t "" [] = specEntries t "" := by
  simpa using processErrors_eq_spec t "" [] (by simpa using h)

theorem c1_flatten_first_message_witness :
    (((specEntries exTree "").map Prod.fst).Nodup) ∧
      processErrors exTree "" [] = specEntries exTree "" :=
  ⟨by decide, c1_flatten_first_message exTree (by decide)⟩

/-- C3: `validateField p` changes at most the error entry at key `p`:
every other key reads the same before and after the call, whatever the
validation outcome. -/
theorem c3_validateField_frame {V : Type} (schema : V → ParseResult)
    (s : FormState V) (p q : String) (hq : q ≠ p) :
    (validateField schema s p).1.errors.get q = s.errors.get q := by
  unfold validateField
  cases hres : schema s.form with
  | success => exact ErrorMap.get_del_ne s.errors p q hq
  | failure fmt issues =>
    cases hdes : descend fmt (splitDot p) with
    | none =>
      simp only [hdes]
      exact ErrorMap.get_del_ne s.errors p q hq
    | some errorObj =>
      cases hmsg : errorObj.messages with
      | nil =>
        simp only [hdes, hmsg]
        exact ErrorMap.get_del_ne s.errors p q hq
      | cons m0 ms =>
        simp only [hdes, hmsg]
        exact ErrorMap.get_set_ne s.errors p m0 q hq

theorem c3_validateField_frame_witness :
    "old" ≠ "a" ∧
      (validateField exSchema exState "a").1.errors.get "old"
        = exState.errors.get "old" :=
  ⟨by decide, c3_validateField_frame exSchema exState "a" "old" (by decide)⟩

/-- C5: `validateField p` splits `p` on `.` and descends the formatted
failure structure child by child: an absent segment at any depth counts
as no error at this path (the entry at `p` is deleted and the call
returns `true`); landing on a node with non-empty messages stores that
node's first message at `p` and returns `false`; a successful full
validation deletes the entry at `p` and returns `true`. -/
theorem c5_validateField_descent {V : Type} (schema : V → ParseResult)
    (s : FormState V) (p : String) :
    (∀ fmt issues, schema s.form = .failure fmt issues →
        ((descend fmt (splitDot p) = none →
            validateField schema s p
              = ({ s with errors := s.errors.del p }, true)) ∧
          (∀ m0 ms cs,
            descend fmt (splitDot p) = some (.node (m0 :: ms) cs) →
            validateField schema s p
              = ({ s with errors := s.errors.set p m0 }, false)))) ∧
      (schema s.form = .success →
        validateField schema s p
          = ({ s with errors := s.errors.del p }, true)) := by
  constructor
  · intro fmt issues hres
    constructor
    · intro hdes
      simp [validateField, hres, hdes]
    · intro m0 ms cs hdes
      simp [validateField, hres, hdes, FormattedErrors.messages]
  · intro hres
    simp [validateField, hres]

theorem c5_validateField_descent_witness :
    descend exTree (splitDot "b.c") = some (.node ["n"] []) ∧
      validateField exSchema exState "b.c"
        = ({ exState with errors := exState.errors.set "b.c" "n" }, false) :=
  ⟨rfl,
    ((c5_validateField_descent exSchema exState "b.c").1 exTree exIssues
      rfl).2 "n" [] [] rfl⟩

/-- C9: `validate` and `validateField` leave the form value (and the
submission flag) unchanged: they read the current value and write only
the error map. -/
theorem c9_value_frame {V : Type} (schema : V → ParseResult)
    (s : FormState V) (p : String) :
    (validate schema s).1.form = s.form ∧
      (validateField schema s p).1.form = s.form ∧
      (validate schema s).1.isSubmitting = s.isSubmitting ∧
      (validateField schema s p).1.isSubmitting = s.isSubmitting :=
  ⟨validate_form schema s, validateField_form schema s p,
    validate_isSubmitting schema s, validateField_isSubmitting schema s p⟩

/-- C2: when the formatted errors carry root-level messages, `validate`
writes the root's first message at the dot-joined path of the first
issue whose path is non-empty (overriding anything previously recorded
there); when no issue has a non-empty path, the root message is dropped
and the error map is exactly the output of the recursive walk. -/
theorem c2_root_refinement {V : Type} (schema : V → ParseResult)
    (s : FormState V) (fmt : FormattedErrors) (issues : List Issue)
    (m0 : String) (ms : List String)
    (hres : schema s.form = .failure fmt issues)
    (hmsgs : fmt.messages = m0 :: ms) :
    (∀ issue, issues.find? (fun i => decide (0 < i.path.length)) = some issue →
        (validate schema s).1.errors.get (String.intercalate "." issue.path)
          = some m0) ∧
      (issues.find? (fun i => decide (0 < i.path.length)) = none →
        (validate schema s).1.errors = processErrors fmt "" []) := by
  constructor
  · intro issue hfind
    simp only [validate, hres, hmsgs, hfind, ErrorMap.clearAll_eq_nil]
    exact ErrorMap.get_set_self _ _ _
  · intro hfind
    simp only [validate, hres, hmsgs, hfind, ErrorMap.clearAll_eq_nil]

theorem c2_root_refinement_witness :
    (validate exSchema exState).1.errors.get "a" = some "rootmsg" :=
  (c2_root_refinement exSchema exState exTree exIssues "rootmsg" [] rfl rfl).1
    { path := ["a"], message := "fieldA" } rfl

/-- C7: `validate` rebuilds the error map from scratch — its resulting
entries do not depend on the entries present before the call — it
returns `true` exactly when the schema validation of the current form
value succeeds, and whenever it returns `true` the error map is
empty. -/
theorem c7_validate_contract {V : Type} (schema : V → ParseResult)
    (s : FormState V) :
    (∀ e : ErrorMap, (validate schema { s with errors := e }).1.errors
        = (validate schema s).1.errors) ∧
      ((validate schema s).2 = true ↔ schema s.form = .success) ∧
      ((validate schema s).2 = true → (validate schema s).1.errors = []) := by
  refine ⟨?_, ?_, ?_⟩
  · intro e
    exact (validate_ext schema { s with errors := e } s rfl).1
  · cases hres : schema s.form with
    | success => simp [validate, hres]
    | failure fmt issues => simp [validate, hres]
  · intro htrue
    cases hres : schema s.form with
    | success => simp [validate, hres, ErrorMap.clearAll_eq_nil]
    | failure fmt issues => simp [validate, hres] at htrue

theorem c7_validate_contract_witness :
    (validate exOkSchema exState).2 = true ∧
      (validate exOkSchema exState).1.errors = [] :=
  ⟨rfl, (c7_validate_contract exOkSchema exState).2.2 rfl⟩

/-- C8: calling `validate` twice in succession without changing the
form value yields the same error map and the same return value both
times. -/
theorem c8_validate_idempotent {V : Type} (schema : V → ParseResult)
    (s : FormState V) :
    (validate schema (validate schema s).1).1.errors
        = (validate schema s).1.errors ∧
      (validate schema (validate schema s).1).2 = (validate schema s).2 :=
  validate_ext schema (validate schema s).1 s (validate_form schema s)

/-- C10: the root-refinement step of `validate` runs after the
recursive walk and overwrites whatever field-level message the walk had
already recorded at the dot-joined path of the first non-empty-path
issue: the final entry there is the root's first message. -/
theorem c10_root_overwrites_field {V : Type} (schema : V → ParseResult)
    (s : FormState V) (fmt : FormattedErrors) (issues : List Issue)
    (m0 : String) (ms : List String) (issue : Issue) (w : String)
    (hres : schema s.form = .failure fmt issues)
    (hmsgs : fmt.messages = m0 :: ms)
    (hfind : issues.find? (fun i => decide (0 < i.path.length)) = some issue)
    (_hprior : (processErrors fmt "" []).get (String.intercalate "." issue.path)
      = some w) :
    (validate schema s).1.errors.get (String.intercalate "." issue.path)
      = some m0 := by
  simp only [validate, hres, hmsgs, hfind, ErrorMap.clearAll_eq_nil]
  exact ErrorMap.get_set_self _ _ _

theorem c10_root_overwrites_field_witness :
    (processErrors exTree "" []).get "a" = some "fieldA" ∧
      (validate exSchema exState).1.errors.get "a" = some "rootmsg" :=
  ⟨rfl, c10_root_overwrites_field exSchema exState exTree exIssues "rootmsg" []
    { path := ["a"], message := "fieldA" } "fieldA" rfl rfl rfl rfl⟩

/-- C4: the submit action returned by `handleSubmit` never invokes the
handler when the full validation fails — and it then leaves the
submission flag unaltered — and invokes the handler exactly once, with
the current form value, when the full validation succeeds. -/
theorem c4_submission_gating {V : Type} (schema : V → ParseResult)
    (onSubmit : V → Except String Unit) (s : FormState V) :
    ((validate schema s).2 = false →
        runSubmit schema onSubmit s
            = .ok { state := (validate schema s).1, handlerCalls := [],
                    logged := [] } ∧
          (validate schema s).1.isSubmitting = s.isSubmitting) ∧
      ((validate schema s).2 = true →
        ∃ out, runSubmit schema onSubmit s = .ok out ∧
          out.handlerCalls = [s.form]) := by
  constructor
  · intro hfalse
    refine ⟨?_, validate_isSubmitting schema s⟩
    simp [runSubmit, hfalse]
  · intro htrue
    have hform := validate_form schema s
    cases ho : onSubmit (validate schema s).1.form with
    | ok u =>
      refine ⟨{ state := { (validate schema s).1 with isSubmitting := false },
                handlerCalls := [(validate schema s).1.form],
                logged := [] }, ?_, by rw [hform]⟩
      simp [runSubmit, htrue, ho]
    | error e =>
      refine ⟨{ state := { (validate schema s).1 with isSubmitting := false },
                handlerCalls := [(validate schema s).1.form],
                logged := ["Form submission error: " ++ e] }, ?_, by rw [hform]⟩
      simp [runSubmit, htrue, ho]

theorem c4_submission_gating_witness :
    ∃ out, runSubmit exOkSchema (fun _ => Except.ok ()) exState = .ok out ∧
      out.handlerCalls = [exState.form] :=
  (c4_submission_gating exOkSchema (fun _ => Except.ok ()) exState).2 rfl

/-- C6: the submit action never propagates a handler failure: for every
handler the action returns normally; and whenever the handler runs, the
submission flag ends `false` whether the handler succeeded or failed,
and a rejecting handler's error is caught and logged. -/
theorem c6_handler_error_swallowed {V : Type} (schema : V → ParseResult)
    (onSubmit : V → Except String Unit) (s : FormState V) :
    (∃ out, runSubmit schema onSubmit s = .ok out) ∧
      ((validate schema s).2 = true →
        ∃ out, runSubmit schema onSubmit s = .ok out ∧
          out.state.isSubmitting = false ∧
          (∀ e, onSubmit s.form = .error e →
            out.logged = ["Form submission error: " ++ e])) := by
  have hform := validate_form schema s
  constructor
  · cases hv : (validate schema s).2 with
    | false =>
      exact ⟨{ state := (validate schema s).1, handlerCalls := [],
               logged := [] }, by simp [runSubmit, hv]⟩
    | true =>
      cases ho : onSubmit (validate schema s).1.form with
      | ok u =>
        exact ⟨{ state := { (validate schema s).1 with isSubmitting := false },
                 handlerCalls := [(validate schema s).1.form],
                 logged := [] }, by simp [runSubmit, hv, ho]⟩
      | error e =>
        exact ⟨{ state := { (validate schema s).1 with isSubmitting := false },
                 handlerCalls := [(validate schema s).1.form],
                 logged := ["Form submission error: " ++ e] },
               by simp [runSubmit, hv, ho]⟩
  · intro htrue
    cases ho : onSubmit (validate schema s).1.form with
    | ok u =>
      refine ⟨{ state := { (validate schema s).1 with isSubmitting := false },
                handlerCalls := [(validate schema s).1.form],
                logged := [] }, ?_, rfl, ?_⟩
      · simp [runSubmit, htrue, ho]
      · intro e he
        rw [hform, he] at ho
        exact absurd ho (by simp)
    | error e0 =>
      refine ⟨{ state := { (validate schema s).1 with isSubmitting := false },
                handlerCalls := [(validate schema s).1.form],
                logged := ["Form submission error: " ++ e0] }, ?_, rfl, ?_⟩
      · simp [runSubmit, htrue, ho]
      · intro e he
        rw [hform, he] at ho
        have h1 : e = e0 := by simpa using ho
        rw [h1]

theorem c6_handler_error_swallowed_witness :
    ∃ out, runSubmit exOkSchema exFailHandler exState = .ok out ∧
      out.state.isSubmitting = false ∧
      (∀ e, exFailHandler exState.form = .error e →
        out.logged = ["Form submission error: " ++ e]) :=
  (c6_handler_error_swallowed exOkSchema exFailHandler exState).2 rfl

end ZodForm
